import Mathlib

/-!
Verification of the column-mean notebook (`Parallel_Example.ipynb`).

The notebook defines a workload function `calc_column_mean(data, column)`
returning `data[:,column].mean()` after a fixed sleep, generates a
100 x 1000 random matrix, and computes the list of column means three
times: with a sequential list comprehension, and twice through a
worker pool (`joblib.Parallel`) with 2 and 10 workers.

The embedding below models matrix entries as rationals (exact
arithmetic standing in for floating point), numpy's fancy column read
with Python index semantics (negative wrap-around, `IndexError` as
`Option.none`), and the worker pool -- which is an external library,
not part of this repository -- from the spec's description: tasks are
dispatched to workers, complete in an arbitrary order given by a
schedule, and each result is collected into the slot of its original
index.  The artificial `time.sleep(.01)` and the wall-clock
measurements affect timing only, never the returned values, so they
have no counterpart in the value-level embedding.
-/

/-- A numpy 2-d array: a shape (`rows` x `cols`) together with its
entries stored row-major, as created by `np.random.rand(100, 1000)`. -/
structure NpArray where
  rows : Nat
  cols : Nat
  entries : List (List ℚ)

/-- Well-formedness of the shape: the stored entries really have
`rows` rows, each of width `cols` (numpy arrays are rectangular by
construction). -/
def NpArray.WF (a : NpArray) : Prop :=
  a.entries.length = a.rows ∧ ∀ row ∈ a.entries, row.length = a.cols

instance (a : NpArray) : Decidable a.WF :=
  inferInstanceAs (Decidable (a.entries.length = a.rows ∧ ∀ row ∈ a.entries, row.length = a.cols))

/-- The entry of `a` at row `r`, column `c` (0 outside the stored lists,
never reached on well-formed input at valid indices). -/
def NpArray.entry (a : NpArray) (r c : Nat) : ℚ :=
  (a.entries.getD r []).getD c 0

/-- Python/numpy index resolution against an axis of length `n`: an
index in `[0, n)` is used as is, an index in `[-n, 0)` wraps around to
`n + i`, and anything else raises `IndexError` (modelled as `none`). -/
def npIndex (n : Nat) (i : Int) : Option Nat :=
  if 0 ≤ i ∧ i < (n : Int) then some i.toNat
  else if -(n : Int) ≤ i ∧ i < 0 then some ((n : Int) + i).toNat
  else none

/-- The column slice `data[:,j]` for an already-resolved nonnegative
index `j`: the `j`-th element of every row, top to bottom. -/
def getColumn (a : NpArray) (j : Nat) : List ℚ :=
  a.entries.map (fun row => row.getD j 0)

/-- `ndarray.mean()`: the sum of the elements divided by their count. -/
def listMean (xs : List ℚ) : ℚ :=
  xs.sum / (xs.length : ℚ)

/-- The notebook's workload function:
`def calc_column_mean(data, column): time.sleep(.01); return data[:,column].mean()`.
The sleep affects timing only; an out-of-range `column` raises
`IndexError` (`none`). -/
def calc_column_mean (data : NpArray) (column : Int) : Option ℚ :=
  (npIndex data.cols column).map (fun j => listMean (getColumn data j))

/-- Left-to-right effectful map over a list: evaluate `f` on each
element in order, collecting the results in the same order; a failure
(`none`, a raised exception) aborts the whole traversal.  This is the
semantics of a Python list comprehension over a fallible body. -/
def seqMap {α β : Type} (f : α → Option β) : List α → Option (List β)
  | [] => some []
  | a :: l =>
    match f a with
    | none => none
    | some v => (seqMap f l).map (fun vs => v :: vs)

/-- The serial strategy:
`[calc_column_mean(data, column) for column in range(data.shape[1])]`,
a left-to-right traversal over the column indices in increasing order. -/
def column_means_serial (data : NpArray) : Option (List ℚ) :=
  seqMap (fun c : Nat => calc_column_mean data (c : Int)) (List.range data.cols)

/-- One completion event of the worker pool: task `i` finishes; its
result is stored into slot `i` of the result array, and a task failure
aborts the whole run. -/
def poolStep (f : Nat → Option ℚ) : Option (List (Option ℚ)) → Nat → Option (List (Option ℚ))
  | none, _ => none
  | some slots, i =>
    match f i with
    | none => none
    | some v => some (slots.set i (some v))

/-- Modelled from the spec: the external worker-pool facility
(`joblib.Parallel`), which is not part of this repository.  It accepts
a callable and the task list `0, ..., n-1`; workers complete the tasks
in an arbitrary order given by the schedule `sched` (a permutation of
the task indices), each result is collected into the slot of its
original index, any worker failure aborts the run, and the results are
returned in original task order. -/
def poolRun (f : Nat → Option ℚ) (n : Nat) (sched : List Nat) : Option (List ℚ) :=
  match sched.foldl (poolStep f) (some (List.replicate n none)) with
  | none => none
  | some slots => seqMap (fun s => s) slots

/-- The parallel strategy:
`Parallel(n_jobs=W)(delayed(calc_column_mean)(data, col) for col in range(data.shape[1]))`.
The worker count `n_jobs` determines the degree of concurrent overlap
(hence timing) but not which tasks run or where results are stored;
the completion order is `sched`. -/
def column_means_parallel (n_jobs : Nat) (sched : List Nat) (data : NpArray) : Option (List ℚ) :=
  poolRun (fun c : Nat => calc_column_mean data (c : Int)) data.cols sched

/-- The serial comprehension written as an explicit accumulate-in-order
loop: each result is appended at the right end of the accumulator, in
increasing column-index order. -/
def serial_append_run (data : NpArray) : Option (List ℚ) :=
  (List.range data.cols).foldl
    (fun acc (c : Nat) =>
      acc.bind (fun xs => (calc_column_mean data (c : Int)).map (fun v => xs ++ [v])))
    (some [])

/-! ### Helper lemmas -/

/-- If every call succeeds, the left-to-right traversal succeeds and
returns exactly the per-element values. -/
theorem seqMap_eq_map {α β : Type} (f : α → Option β) (d : β) :
    ∀ (l : List α), (∀ a ∈ l, (f a).isSome) →
      seqMap f l = some (l.map (fun a => (f a).getD d)) := by
  intro l
  induction l with
  | nil => intro h; rfl
  | cons a t ih =>
    intro h
    obtain ⟨v, hv⟩ := Option.isSome_iff_exists.mp (h a (List.mem_cons_self a t))
    have ht := ih (fun b hb => h b (List.mem_cons_of_mem a hb))
    simp [seqMap, hv, ht]

/-- Collecting a list of already-computed optional values commutes with
`map`: sequencing the image of `f` is traversing with `f`. -/
theorem seqMap_id_map {α β : Type} (f : α → Option β) :
    ∀ (l : List α), seqMap (fun s => s) (l.map f) = seqMap f l := by
  intro l
  induction l with
  | nil => rfl
  | cons a t ih =>
    cases hfa : f a with
    | none => simp [seqMap, hfa]
    | some v => simp [seqMap, hfa, ih]

/-- Every in-range column task of the workload function succeeds. -/
theorem calc_column_mean_isSome (data : NpArray) (c : Nat) (hc : c < data.cols) :
    (calc_column_mean data (c : Int)).isSome := by
  have h : (0 : Int) ≤ (c : Int) ∧ (c : Int) < (data.cols : Int) := by omega
  simp [calc_column_mean, npIndex, h]

/-- Explicit successful value of the serial strategy: one mean per
column index, in increasing order. -/
theorem column_means_serial_eq_map (data : NpArray) :
    column_means_serial data =
      some ((List.range data.cols).map (fun c : Nat => (calc_column_mean data (c : Int)).getD 0)) :=
  seqMap_eq_map (fun c : Nat => calc_column_mean data (c : Int)) 0 (List.range data.cols)
    (fun a ha => calc_column_mean_isSome data a (List.mem_range.mp ha))

/-- When every task succeeds, the pool's completion fold is a plain
fold of slot writes. -/
theorem poolStep_foldl (f : Nat → Option ℚ) :
    ∀ (sched : List Nat) (slots : List (Option ℚ)), (∀ i ∈ sched, (f i).isSome) →
      sched.foldl (poolStep f) (some slots) =
        some (sched.foldl (fun s i => s.set i (f i)) slots) := by
  intro sched
  induction sched with
  | nil => intro slots _; rfl
  | cons a t ih =>
    intro slots h
    obtain ⟨v, hv⟩ := Option.isSome_iff_exists.mp (h a (List.mem_cons_self a t))
    have hstep : poolStep f (some slots) a = some (slots.set a (f a)) := by
      simp [poolStep, hv]
    simp only [List.foldl_cons, hstep]
    exact ih _ (fun b hb => h b (List.mem_cons_of_mem a hb))

/-- Contents of the slot array after a fold of slot writes: slot `j`
holds the value of task `j` exactly when `j` was scheduled (and fits). -/
theorem foldl_set_getElem (f : Nat → Option ℚ) :
    ∀ (sched : List Nat) (slots : List (Option ℚ)) (j : Nat),
      (sched.foldl (fun s i => s.set i (f i)) slots)[j]? =
        if j ∈ sched ∧ j < slots.length then some (f j) else slots[j]? := by
  intro sched
  induction sched with
  | nil => intro slots j; simp
  | cons a t ih =>
    intro slots j
    simp only [List.foldl_cons]
    rw [ih]
    by_cases hjt : j ∈ t
    · by_cases hjl : j < slots.length
      · simp [hjt, hjl, List.length_set]
      · simp only [hjt, hjl, List.length_set, and_false, if_false, true_and,
          List.mem_cons, List.getElem?_set, List.getElem?_eq_none (Nat.le_of_not_lt hjl)]
        split_ifs with h1 h2 <;> try rfl
        omega
    · by_cases hja : j = a
      · subst hja
        by_cases hjl : j < slots.length
        · simp [hjt, hjl, List.length_set, List.getElem?_set]
        · simp [hjt, hjl, List.length_set, List.getElem?_set,
            List.getElem?_eq_none (Nat.le_of_not_lt hjl)]
      · have : ¬ (j ∈ a :: t) := by simp [hja, hjt]
        simp [hjt, this, List.length_set, List.getElem?_set_ne (fun h => hja h.symm)]

/-- Modelled pool refinement: for any completion order that is a
permutation of the task indices, and tasks that all succeed, the pool
returns exactly the left-to-right traversal of the tasks. -/
theorem poolRun_eq_seqMap (f : Nat → Option ℚ) (n : Nat) (sched : List Nat)
    (hs : sched.Perm (List.range n)) (hf : ∀ i, i < n → (f i).isSome) :
    poolRun f n sched = seqMap f (List.range n) := by
  have hmem : ∀ i ∈ sched, (f i).isSome := by
    intro i hi
    exact hf i (List.mem_range.mp (hs.mem_iff.mp hi))
  have hF : sched.foldl (fun s i => s.set i (f i)) (List.replicate n none) =
      (List.range n).map f := by
    apply List.ext_getElem?
    intro j
    rw [foldl_set_getElem]
    by_cases hj : j < n
    · have hjs : j ∈ sched := hs.mem_iff.mpr (List.mem_range.mpr hj)
      simp [hjs, hj, List.getElem?_range hj]
    · have hjs : j ∉ sched := fun h => hj (List.mem_range.mp (hs.mem_iff.mp h))
      simp [hjs, hj, List.getElem?_replicate,
        List.getElem?_eq_none (by simpa using Nat.le_of_not_lt hj : (List.range n).length ≤ j)]
  rw [poolRun, poolStep_foldl f sched _ hmem, hF]
  simp [seqMap_id_map]

/-- The sum of a list mapped over equals the index-wise finite sum. -/
theorem list_sum_map_eq_finset_sum (g : List ℚ → ℚ) :
    ∀ (l : List (List ℚ)),
      (l.map g).sum = ∑ r ∈ Finset.range l.length, g (l.getD r []) := by
  intro l
  induction l with
  | nil => simp
  | cons a t ih =>
    simp only [List.map_cons, List.sum_cons, List.length_cons, Finset.sum_range_succ',
      List.getD_cons_succ, List.getD_cons_zero, ih]
    ring

/-- The numpy mean of a stored column is the arithmetic mean of the
matrix entries of that column: their sum divided by the row count. -/
theorem listMean_getColumn (data : NpArray) (j : Nat) (hwf : data.WF) :
    listMean (getColumn data j) =
      (∑ r ∈ Finset.range data.rows, data.entry r j) / (data.rows : ℚ) := by
  have hlen : (getColumn data j).length = data.rows := by
    simp [getColumn, hwf.1]
  have hsum : (getColumn data j).sum = ∑ r ∈ Finset.range data.rows, data.entry r j := by
    rw [getColumn, list_sum_map_eq_finset_sum, hwf.1]
    rfl
  rw [listMean, hlen, hsum]

/-- A failed accumulator stays failed for the rest of the append loop. -/
theorem foldl_append_none {α β : Type} (f : α → Option β) :
    ∀ (l : List α),
      l.foldl (fun o c => o.bind (fun xs => (f c).map (fun v => xs ++ [v]))) none = none := by
  intro l
  induction l with
  | nil => rfl
  | cons a t ih => simpa using ih

/-- The accumulate-by-appending loop computes the left-to-right
traversal, prefixed by whatever is already in the accumulator. -/
theorem foldl_append_eq_seqMap {α β : Type} (f : α → Option β) :
    ∀ (l : List α) (acc : List β),
      l.foldl (fun o c => o.bind (fun xs => (f c).map (fun v => xs ++ [v]))) (some acc) =
        (seqMap f l).map (fun ys => acc ++ ys) := by
  intro l
  induction l with
  | nil => intro acc; simp [seqMap]
  | cons a t ih =>
    intro acc
    cases hfa : f a with
    | none => simp [seqMap, hfa, foldl_append_none]
    | some v =>
      simp only [List.foldl_cons, hfa, seqMap]
      simp only [Option.some_bind, Option.map_some']
      rw [ih]
      cases seqMap f t with
      | none => rfl
      | some ys => simp

/-- The serial comprehension and its accumulate-in-order reading agree. -/
theorem column_means_serial_eq_append_run (data : NpArray) :
    column_means_serial data = serial_append_run data := by
  rw [column_means_serial, serial_append_run, foldl_append_eq_seqMap]
  cases seqMap (fun c : Nat => calc_column_mean data (c : Int)) (List.range data.cols) with
  | none => rfl
  | some ys => simp

/-! ### State-passing embedding

The pure embedding above cannot even express mutation of the matrix.
To settle the frame claim we re-translate the three computations in
state-passing style: the matrix is the (only) mutable store, each
operation returns its value together with the store it leaves behind,
and the store a read leaves behind is the store it was given -- which
is exactly what the source does, since neither `calc_column_mean` nor
any strategy contains an assignment into `data`. -/

/-- State-passing workload call: `data[:,column].mean()` reads the
array and performs no store, so it returns the array it was given. -/
def calc_column_mean_st (data : NpArray) (column : Int) : Option ℚ × NpArray :=
  (calc_column_mean data column, data)

/-- One state-passing iteration of the serial comprehension: call the
workload on the current store, append the value, keep the store the
call left behind. -/
def serial_step_st (acc : Option (List ℚ) × NpArray) (c : Nat) :
    Option (List ℚ) × NpArray :=
  let r := calc_column_mean_st acc.2 (c : Int)
  (acc.1.bind (fun xs => r.1.map (fun v => xs ++ [v])), r.2)

/-- State-passing serial comprehension: the matrix state is threaded
through every workload call in column order. -/
def column_means_serial_st (data : NpArray) : Option (List ℚ) × NpArray :=
  (List.range data.cols).foldl serial_step_st (some [], data)

/-- One state-passing completion event of the pool: the finishing
worker calls the workload on the current store, its value is written
into the slot of its task index, and the store the call left behind is
kept. -/
def pool_step_st (acc : Option (List (Option ℚ)) × NpArray) (i : Nat) :
    Option (List (Option ℚ)) × NpArray :=
  let r := calc_column_mean_st acc.2 (i : Int)
  (match acc.1 with
    | none => none
    | some slots =>
      match r.1 with
      | none => none
      | some v => some (slots.set i (some v)),
    r.2)

/-- State-passing pool run: the matrix state is threaded through every
workload call in completion order; slots collect the values. -/
def poolRun_st (n : Nat) (sched : List Nat) (data : NpArray) :
    Option (List ℚ) × NpArray :=
  let final := sched.foldl pool_step_st (some (List.replicate n none), data)
  (final.1.bind (fun slots => seqMap (fun s => s) slots), final.2)

/-- State-passing parallel strategy. -/
def column_means_parallel_st (n_jobs : Nat) (sched : List Nat) (data : NpArray) :
    Option (List ℚ) × NpArray :=
  poolRun_st data.cols sched data

/-! ### Printed output

The three cells end with two `print` calls each.  The first prints the
cell's hard-coded worker-count header, the second prints
`'Elapsed computation tiem: ... s'.format(stop - start)` -- the string
literally present in the notebook, with its misspelling of `time` --
around the elapsed-seconds text (two decimal places).  The reports are
functions of that formatted elapsed string, since the actual seconds
are wall-clock dependent. -/

/-- Lines printed by the serial cell. -/
def serial_report (elapsed : String) : List String :=
  ["1 Processor", "Elapsed computation tiem: " ++ elapsed ++ " s"]

/-- Lines printed by the `n_jobs=2` cell. -/
def parallel2_report (elapsed : String) : List String :=
  ["2 Processors", "Elapsed computation tiem: " ++ elapsed ++ " s"]

/-- Lines printed by the `n_jobs=10` cell: its header is the hard-coded
string `'2 Processors'`, not `'10 Processors'`. -/
def parallel10_report (elapsed : String) : List String :=
  ["2 Processors", "Elapsed computation tiem: " ++ elapsed ++ " s"]

/-- The state thread of the serial loop is inert: folding the
state-passing step from store `d` computes the pure fold and returns
`d` itself. -/
theorem serial_st_foldl :
    ∀ (l : List Nat) (o : Option (List ℚ)) (d : NpArray),
      l.foldl serial_step_st (o, d) =
        (l.foldl (fun acc (c : Nat) =>
            acc.bind (fun xs => (calc_column_mean d (c : Int)).map (fun v => xs ++ [v]))) o,
          d) := by
  intro l
  induction l with
  | nil => intro o d; rfl
  | cons a t ih =>
    intro o d
    simp only [List.foldl_cons]
    rw [show serial_step_st (o, d) a =
        (o.bind (fun xs => (calc_column_mean d (a : Int)).map (fun v => xs ++ [v])), d) from rfl]
    exact ih _ d

/-- The state thread of the pool loop is inert: folding the
state-passing completion step from store `d` computes the pure pool
fold and returns `d` itself. -/
theorem pool_st_foldl :
    ∀ (sched : List Nat) (o : Option (List (Option ℚ))) (d : NpArray),
      sched.foldl pool_step_st (o, d) =
        (sched.foldl (poolStep (fun c : Nat => calc_column_mean d (c : Int))) o, d) := by
  intro sched
  induction sched with
  | nil => intro o d; rfl
  | cons a t ih =>
    intro o d
    simp only [List.foldl_cons]
    have hstep : pool_step_st (o, d) a =
        (poolStep (fun c : Nat => calc_column_mean d (c : Int)) o a, d) := by
      cases o with
      | none => rfl
      | some slots =>
        cases h : calc_column_mean d (a : Int) with
        | none => simp [pool_step_st, poolStep, calc_column_mean_st, h]
        | some v => simp [pool_step_st, poolStep, calc_column_mean_st, h]
    rw [hstep]
    exact ih _ d

/-! ### Concrete instances used by the witnesses -/

/-- A small 2 x 3 matrix. -/
def M23 : NpArray := ⟨2, 3, [[1, 2, 3], [4, 5, 6]]⟩

/-- A small 2 x 2 matrix. -/
def M22 : NpArray := ⟨2, 2, [[1, 3], [2, 5]]⟩

/-- A 2 x 2 matrix differing from `M22` in column 0 and agreeing with
it in column 1. -/
def M22b : NpArray := ⟨2, 2, [[7, 3], [9, 5]]⟩

/-- The 0-column boundary matrix. -/
def M00 : NpArray := ⟨0, 0, []⟩

/-! ### Claims -/

/-- Claim C1: for every matrix and every worker count `W ≥ 1`, the
sequence of column means produced by the parallel strategy (the pool
mapping `calc_column_mean` over column indices `0..C-1`, whatever
completion order the schedule realises) equals, element by element and
in the same column-index order, the sequence produced by the
sequential baseline comprehension. -/
theorem C1_parallel_equals_serial (data : NpArray) (W : Nat) (sched : List Nat)
    (_hW : 1 ≤ W) (hs : sched.Perm (List.range data.cols)) :
    column_means_parallel W sched data = column_means_serial data :=
  poolRun_eq_seqMap (fun c : Nat => calc_column_mean data (c : Int)) data.cols sched hs
    (fun i hi => calc_column_mean_isSome data i hi)

/-- Witness for C1: a 2-worker pool completing tasks in the order
2, 0, 1 on a concrete 2 x 3 matrix returns the serial result. -/
theorem C1_witness :
    1 ≤ 2 ∧ [2, 0, 1].Perm (List.range M23.cols) ∧
      column_means_parallel 2 [2, 0, 1] M23 = column_means_serial M23 :=
  ⟨by norm_num, by decide,
    C1_parallel_equals_serial M23 2 [2, 0, 1] (by norm_num) (by decide)⟩

/-- Claim C5: for every matrix with `C ≥ 0` columns and every worker
count `W ≥ 1`, each strategy completes without error and returns a
result sequence of length `C`. -/
theorem C5_strategies_return_C_results (data : NpArray) (W : Nat) (sched : List Nat)
    (_hW : 1 ≤ W) (hs : sched.Perm (List.range data.cols)) :
    ∃ l, column_means_serial data = some l ∧
      column_means_parallel W sched data = some l ∧ l.length = data.cols := by
  refine ⟨_, column_means_serial_eq_map data, ?_, ?_⟩
  · rw [column_means_parallel, poolRun_eq_seqMap (fun c : Nat => calc_column_mean data (c : Int))
      data.cols sched hs (fun i hi => calc_column_mean_isSome data i hi)]
    exact column_means_serial_eq_map data
  · simp

/-- Witness for C5 at the boundary `C = 0`: both strategies succeed on
the empty matrix with the empty result sequence. -/
theorem C5_witness :
    1 ≤ 1 ∧ ([] : List Nat).Perm (List.range M00.cols) ∧
      ∃ l, column_means_serial M00 = some l ∧
        column_means_parallel 1 [] M00 = some l ∧ l.length = M00.cols :=
  ⟨by norm_num, by decide,
    C5_strategies_return_C_results M00 1 [] (by norm_num) (by decide)⟩

/-- Claim C6: the baseline strategy invokes the workload once per
column index in strictly increasing order, appending each result in
that same order (the comprehension equals the accumulate-by-append
loop over `0, 1, ..., C-1`), so the `i`-th element of the result is
the mean of column `i`. -/
theorem C6_serial_in_column_order (data : NpArray) (l : List ℚ)
    (h : column_means_serial data = some l) :
    column_means_serial data = serial_append_run data ∧
      l.length = data.cols ∧
      ∀ i, i < data.cols → calc_column_mean data (i : Int) = some (l.getD i 0) := by
  have hmap := column_means_serial_eq_map data
  rw [h] at hmap
  have hl : l = (List.range data.cols).map
      (fun c : Nat => (calc_column_mean data (c : Int)).getD 0) :=
    Option.some_inj.mp hmap
  refine ⟨column_means_serial_eq_append_run data, ?_, ?_⟩
  · rw [hl]; simp
  · intro i hi
    rw [hl, List.getD_eq_getElem?_getD, List.getElem?_map, List.getElem?_range hi]
    simp only [Option.map_some', Option.getD_some]
    obtain ⟨v, hv⟩ := Option.isSome_iff_exists.mp (calc_column_mean_isSome data i hi)
    rw [hv]
    rfl

/-- Witness for C6: the serial result on a concrete 2 x 3 matrix, with
its concrete value. -/
theorem C6_witness :
    column_means_serial M23 = some [5/2, 7/2, 9/2] ∧
      (column_means_serial M23 = serial_append_run M23 ∧
        ([(5 : ℚ)/2, 7/2, 9/2] : List ℚ).length = M23.cols ∧
        ∀ i, i < M23.cols →
          calc_column_mean M23 (i : Int) = some (([(5 : ℚ)/2, 7/2, 9/2] : List ℚ).getD i 0)) := by
  have h : column_means_serial M23 = some [5/2, 7/2, 9/2] := by
    simp [column_means_serial, M23, seqMap, calc_column_mean, npIndex, getColumn, listMean,
      List.range_succ]
    norm_num
  exact ⟨h, C6_serial_in_column_order M23 [5/2, 7/2, 9/2] h⟩

/-- Claim C7: the computation is deterministic given the matrix --
re-running a strategy on the same matrix yields the identical result
sequence.  For the pool the two runs may realise different completion
orders; the serial comprehension is a pure function of the matrix, so
its two runs are literally the same value. -/
theorem C7_deterministic (data : NpArray) (W : Nat) (s1 s2 : List Nat)
    (h1 : s1.Perm (List.range data.cols)) (h2 : s2.Perm (List.range data.cols)) :
    column_means_parallel W s1 data = column_means_parallel W s2 data ∧
      column_means_serial data = column_means_serial data := by
  have hf : ∀ i, i < data.cols →
      ((fun c : Nat => calc_column_mean data (c : Int)) i).isSome :=
    fun i hi => calc_column_mean_isSome data i hi
  exact ⟨(poolRun_eq_seqMap _ data.cols s1 h1 hf).trans
      (poolRun_eq_seqMap _ data.cols s2 h2 hf).symm, rfl⟩

/-- Witness for C7: two pool runs with different completion orders on
a concrete matrix agree. -/
theorem C7_witness :
    [2, 0, 1].Perm (List.range M23.cols) ∧ [1, 2, 0].Perm (List.range M23.cols) ∧
      (column_means_parallel 2 [2, 0, 1] M23 = column_means_parallel 2 [1, 2, 0] M23 ∧
        column_means_serial M23 = column_means_serial M23) :=
  ⟨by decide, by decide, C7_deterministic M23 2 [2, 0, 1] [1, 2, 0] (by decide) (by decide)⟩

/-- Claim C2: for every well-formed matrix and every column index in
`[0, column_count)`, `calc_column_mean` returns the arithmetic mean --
the sum of the entries of that column divided by the row count. -/
theorem C2_calc_column_mean_is_mean (data : NpArray) (c : Nat)
    (hwf : data.WF) (hc : c < data.cols) :
    calc_column_mean data (c : Int) =
      some ((∑ r ∈ Finset.range data.rows, data.entry r c) / (data.rows : ℚ)) := by
  have h : (0 : Int) ≤ (c : Int) ∧ (c : Int) < (data.cols : Int) := by omega
  simp only [calc_column_mean, npIndex, if_pos h, Option.map_some', Int.toNat_natCast]
  rw [listMean_getColumn data c hwf]

/-- Witness for C2: the mean of column 1 of a concrete 2 x 2 matrix. -/
theorem C2_witness :
    M22.WF ∧ 1 < M22.cols ∧
      calc_column_mean M22 (1 : Int) =
        some ((∑ r ∈ Finset.range M22.rows, M22.entry r 1) / (M22.rows : ℚ)) :=
  ⟨by decide, by decide, C2_calc_column_mean_is_mean M22 1 (by decide) (by decide)⟩

/-- Claim C9: for every negative column index `c` with
`-column_count ≤ c < 0`, `calc_column_mean` does not raise a bounds
error but returns the arithmetic mean of column `column_count + c`
(numpy wrap-around). -/
theorem C9_negative_index_wraps (data : NpArray) (c : Int)
    (hwf : data.WF) (hlo : -(data.cols : Int) ≤ c) (hhi : c < 0) :
    calc_column_mean data c =
      some ((∑ r ∈ Finset.range data.rows, data.entry r ((data.cols : Int) + c).toNat) /
        (data.rows : ℚ)) := by
  have h1 : ¬ ((0 : Int) ≤ c ∧ c < (data.cols : Int)) := by omega
  have h2 : -(data.cols : Int) ≤ c ∧ c < 0 := ⟨hlo, hhi⟩
  simp only [calc_column_mean, npIndex, if_neg h1, if_pos h2, Option.map_some']
  rw [listMean_getColumn data _ hwf]

/-- Witness for C9: index `-1` on a concrete 2 x 2 matrix yields the
mean of column `2 + (-1) = 1`. -/
theorem C9_witness :
    M22.WF ∧ -(M22.cols : Int) ≤ -1 ∧ (-1 : Int) < 0 ∧
      calc_column_mean M22 (-1) =
        some ((∑ r ∈ Finset.range M22.rows, M22.entry r ((M22.cols : Int) + -1).toNat) /
          (M22.rows : ℚ)) :=
  ⟨by decide, by decide, by norm_num,
    C9_negative_index_wraps M22 (-1) (by decide) (by decide) (by norm_num)⟩

/-- Counterexample to claim C3 as stated: on a concrete 1 x 2 matrix
the index `-1` lies outside `[0, column_count)`, yet the call does not
fail -- numpy wraps it around to column 1 -- so failure is not
equivalent to lying outside `[0, column_count)`. -/
theorem C3_counterexample :
    ¬ (calc_column_mean M22 (-1) = none ↔
        ¬ ((0 : Int) ≤ -1 ∧ (-1 : Int) < (M22.cols : Int))) := by
  simp [M22, calc_column_mean, npIndex]

/-- Claim C3 as amended: `calc_column_mean data c` fails with a bounds
error if and only if `c < -column_count` or `c ≥ column_count`; for
every index in `[-column_count, column_count)` it succeeds (negative
indices wrap around), and a failure yields no partial result. -/
theorem C3_amended_bounds_error_iff (data : NpArray) (c : Int) :
    calc_column_mean data c = none ↔
      (c < -(data.cols : Int) ∨ (data.cols : Int) ≤ c) := by
  simp only [calc_column_mean, npIndex]
  split_ifs with h1 h2 <;> simp <;> omega

/-- Claim C4 is a code bug, witnessed here: at the notebook's recorded
elapsed texts, the `n_jobs=10` cell prints the header `2 Processors`
(contradicting its own markdown heading about 10 processors), and all
three cells print the misspelled label `Elapsed computation tiem`
rather than `Elapsed computation time`. -/
theorem C4_printed_output_mismatch :
    parallel10_report "1.75" = ["2 Processors", "Elapsed computation tiem: 1.75 s"] ∧
      parallel10_report "1.75" ≠ ["10 Processors", "Elapsed computation time: 1.75 s"] ∧
      serial_report "10.07" = ["1 Processor", "Elapsed computation tiem: 10.07 s"] ∧
      serial_report "10.07" ≠ ["1 Processor", "Elapsed computation time: 10.07 s"] ∧
      parallel2_report "5.46" = ["2 Processors", "Elapsed computation tiem: 5.46 s"] :=
  ⟨rfl, by decide, rfl, by decide, rfl⟩

/-- Claim C8: the matrix is never mutated.  In the state-passing
embedding, the workload call and both whole-strategy invocations
return the store they were given -- every entry unchanged -- and their
value components coincide with the pure strategies, so all strategies
read the same matrix values. -/
theorem C8_matrix_never_mutated (data : NpArray) (c : Int) (W : Nat) (sched : List Nat) :
    (calc_column_mean_st data c).2 = data ∧
    (column_means_serial_st data).2 = data ∧
    (column_means_parallel_st W sched data).2 = data ∧
    (column_means_serial_st data).1 = column_means_serial data ∧
    (column_means_parallel_st W sched data).1 = column_means_parallel W sched data := by
  refine ⟨rfl, ?_, ?_, ?_, ?_⟩
  · simp only [column_means_serial_st, serial_st_foldl]
  · simp only [column_means_parallel_st, poolRun_st, pool_st_foldl]
  · simp only [column_means_serial_st, serial_st_foldl]
    exact (column_means_serial_eq_append_run data).symm
  · simp only [column_means_parallel_st, poolRun_st, pool_st_foldl]
    simp only [column_means_parallel, poolRun]
    cases h : sched.foldl (poolStep (fun cc : Nat => calc_column_mean data (cc : Int)))
        (some (List.replicate data.cols none)) with
    | none => rfl
    | some slots => rfl

/-- Claim C10: noninterference of columns -- the mean returned for
column `j` depends only on the entries of column `j`.  Two well-formed
matrices of the same shape that agree on column `j` yield equal means,
whatever the other columns hold. -/
theorem C10_column_noninterference (d1 d2 : NpArray) (j : Nat)
    (hwf1 : d1.WF) (hwf2 : d2.WF) (hrows : d1.rows = d2.rows) (hcols : d1.cols = d2.cols)
    (hj : j < d1.cols)
    (hagree : ∀ r, r < d1.rows → d1.entry r j = d2.entry r j) :
    calc_column_mean d1 (j : Int) = calc_column_mean d2 (j : Int) := by
  have hcol : getColumn d1 j = getColumn d2 j := by
    apply List.ext_getElem?
    intro r
    simp only [getColumn, List.getElem?_map]
    by_cases hr : r < d1.rows
    · have hr1 : r < d1.entries.length := by rw [hwf1.1]; exact hr
      have hr2 : r < d2.entries.length := by rw [hwf2.1, ← hrows]; exact hr
      rw [List.getElem?_eq_getElem hr1, List.getElem?_eq_getElem hr2]
      simp only [Option.map_some']
      have k1 : d1.entry r j = d1.entries[r].getD j 0 := by
        simp [NpArray.entry, List.getD_eq_getElem?_getD, List.getElem?_eq_getElem hr1]
      have k2 : d2.entry r j = d2.entries[r].getD j 0 := by
        simp [NpArray.entry, List.getD_eq_getElem?_getD, List.getElem?_eq_getElem hr2]
      rw [← k1, ← k2, hagree r hr]
    · have e1 := hwf1.1
      have e2 := hwf2.1
      rw [List.getElem?_eq_none (by omega : d1.entries.length ≤ r),
        List.getElem?_eq_none (by omega : d2.entries.length ≤ r)]
  have h0 : (0 : Int) ≤ (j : Int) ∧ (j : Int) < (d1.cols : Int) := by omega
  have h1 : (0 : Int) ≤ (j : Int) ∧ (j : Int) < (d2.cols : Int) := by omega
  simp only [calc_column_mean, npIndex, if_pos h0, if_pos h1, Option.map_some',
    Int.toNat_natCast, hcol]

/-- Witness for C10: two concrete 2 x 2 matrices that differ in column
0 but agree in column 1 have the same column-1 mean. -/
theorem C10_witness :
    M22.WF ∧ M22b.WF ∧ M22.rows = M22b.rows ∧ M22.cols = M22b.cols ∧ 1 < M22.cols ∧
      (∀ r, r < M22.rows → M22.entry r 1 = M22b.entry r 1) ∧
      calc_column_mean M22 (1 : Int) = calc_column_mean M22b (1 : Int) :=
  ⟨by decide, by decide, rfl, rfl, by decide, by decide,
    C10_column_noninterference M22 M22b 1 (by decide) (by decide) rfl rfl (by decide) (by decide)⟩
